import Mathlib

/-!
Verification of the PBKDF2 / HMAC-SHA-1 key-derivation core in
src/crypto/pbkdf2.cc.

The development shallowly embeds the source file:
byte buffers are lists of naturals (each element a byte value),
32-bit machine words are naturals reduced modulo 2^32 at every
operation that can overflow, size_t is a natural bounded by SIZE_MAX,
and the fallible C entry points return Option (none models the -1
error return, respectively the exception thrown by throw_c).
The underlying SHA-1 primitive (OpenSSL in the source) is embedded
directly from FIPS 180 so that the HMAC and PBKDF2 layers can be
evaluated on concrete inputs and checked against published vectors.
-/

namespace CryptdbPbkdf2

/-- Modulus of a 32-bit machine word. -/
def w32 : Nat := 4294967296

/-- Left rotation of a 32-bit word by n bits. -/
def rotl (n x : Nat) : Nat := ((x <<< n) ||| (x >>> (32 - n))) % w32

/-- Big-endian byte serialisation of x into n bytes. -/
def toBytesBE (n x : Nat) : List Nat :=
  (List.range n).map (fun i => (x >>> (8 * (n - 1 - i))) % 256)

/-- Group a byte list into big-endian 32-bit words (SHA-1 message words). -/
def bytesToWords : List Nat → List Nat
  | a :: b :: c :: d :: rest => (((a * 256 + b) * 256 + c) * 256 + d) :: bytesToWords rest
  | _ => []

/-- Split a word list into 16-word (64-byte) SHA-1 chunks. -/
def wordsToChunks : List Nat → List (List Nat)
  | w0 :: w1 :: w2 :: w3 :: w4 :: w5 :: w6 :: w7 ::
    w8 :: w9 :: w10 :: w11 :: w12 :: w13 :: w14 :: w15 :: rest =>
      [w0, w1, w2, w3, w4, w5, w6, w7, w8, w9, w10, w11, w12, w13, w14, w15]
        :: wordsToChunks rest
  | _ => []

/-- FIPS 180 padding: append 0x80, zero bytes, and the 64-bit bit length,
to a multiple of 64 bytes. -/
def sha1_pad (msg : List Nat) : List Nat :=
  msg ++ 128 :: List.replicate ((64 - (msg.length + 9) % 64) % 64) 0
      ++ toBytesBE 8 (msg.length * 8)

/-- SHA-1 round function f_t. -/
def sha1_f (t b c d : Nat) : Nat :=
  if t < 20 then (b &&& c) ||| ((b ^^^ 4294967295) &&& d)
  else if t < 40 then b ^^^ c ^^^ d
  else if t < 60 then (b &&& c) ||| (b &&& d) ||| (c &&& d)
  else b ^^^ c ^^^ d

/-- SHA-1 round constant K_t. -/
def sha1_kconst (t : Nat) : Nat :=
  if t < 20 then 0x5A827999 else if t < 40 then 0x6ED9EBA1
  else if t < 60 then 0x8F1BBCDC else 0xCA62C1D6

/-- Message-schedule extension, most recent word at the head:
each new word is rotl1 of the XOR of the words 3, 8, 14 and 16 back. -/
def sha1_extend (ws : List Nat) : Nat → List Nat
  | 0 => ws
  | k + 1 =>
      let prev := sha1_extend ws k
      rotl 1 (prev.getD 2 0 ^^^ prev.getD 7 0 ^^^ prev.getD 13 0 ^^^ prev.getD 15 0) :: prev

/-- The 80-word message schedule of one chunk. -/
def sha1_schedule (chunk : List Nat) : List Nat :=
  (sha1_extend chunk.reverse 64).reverse

/-- One SHA-1 compression round on the (a,b,c,d,e) state. -/
def sha1_step (t w : Nat) : Nat × Nat × Nat × Nat × Nat → Nat × Nat × Nat × Nat × Nat
  | (a, b, c, d, e) =>
      ((rotl 5 a + sha1_f t b c d + e + sha1_kconst t + w) % w32, a, rotl 30 b, c, d)

/-- Run the 80 compression rounds over the schedule. -/
def sha1_rounds (st : Nat × Nat × Nat × Nat × Nat) (t : Nat) :
    List Nat → Nat × Nat × Nat × Nat × Nat
  | [] => st
  | w :: ws => sha1_rounds (sha1_step t w st) (t + 1) ws

/-- Compress one 16-word chunk into the running hash state. -/
def sha1_compress (h : Nat × Nat × Nat × Nat × Nat) (chunk : List Nat) :
    Nat × Nat × Nat × Nat × Nat :=
  match h, sha1_rounds h 0 (sha1_schedule chunk) with
  | (h0, h1, h2, h3, h4), (a, b, c, d, e) =>
      ((h0 + a) % w32, (h1 + b) % w32, (h2 + c) % w32, (h3 + d) % w32, (h4 + e) % w32)

/-- Fold the compression function over all chunks. -/
def sha1_chunks (h : Nat × Nat × Nat × Nat × Nat) :
    List (List Nat) → Nat × Nat × Nat × Nat × Nat
  | [] => h
  | c :: cs => sha1_chunks (sha1_compress h c) cs

/-- SHA-1 initial state. -/
def sha1_init : Nat × Nat × Nat × Nat × Nat :=
  (0x67452301, 0xEFCDAB89, 0x98BADCFE, 0x10325476, 0xC3D2E1F0)

/-- Serialise the final state into the 20-byte digest. -/
def sha1_output : Nat × Nat × Nat × Nat × Nat → List Nat
  | (h0, h1, h2, h3, h4) =>
      toBytesBE 4 h0 ++ toBytesBE 4 h1 ++ toBytesBE 4 h2 ++ toBytesBE 4 h3 ++ toBytesBE 4 h4

/-- SHA-1 of a byte sequence (the primitive the source obtains from
OpenSSL via SHA1_Init / SHA1_Update / SHA1_Final). -/
def sha1 (msg : List Nat) : List Nat :=
  sha1_output (sha1_chunks sha1_init (wordsToChunks (bytesToWords (sha1_pad msg))))

/-- Model of bcopy src into a zeroed fixed buffer dst: the first
src.length bytes are overwritten, the tail of dst is kept. -/
def overwrite (dst src : List Nat) : List Nat := src ++ dst.drop src.length

/-- hmac_sha1 from src/crypto/pbkdf2.cc lines 38-75, instrumented: the
first component is the digest written to the output argument, the second
is the content the local k_pad buffer holds when the function returns
(the outer pad is built in k_pad last and is never cleared afterwards).
A key longer than the 64-byte block is first replaced by its hash (tk);
k_pad is bzeroed, the key copied in, and every byte XORed with 0x36
(inner pad) respectively 0x5c (outer pad). -/
def hmac_sha1S (text key : List Nat) : List Nat × List Nat :=
  let k := if 64 < key.length then sha1 key else key
  let ipad := (overwrite (List.replicate 64 0) k).map (fun b => b ^^^ 0x36)
  let inner := sha1 (ipad ++ text)
  let opad := (overwrite (List.replicate 64 0) k).map (fun b => b ^^^ 0x5c)
  (sha1 (opad ++ inner), opad)

/-- The digest computed by hmac_sha1 (the function's sole output). -/
def hmac_sha1 (text key : List Nat) : List Nat := (hmac_sha1S text key).1

/-- Content of hmac_sha1's k_pad buffer at function exit: the outer pad
of the effective key. -/
def opadOf (key : List Nat) : List Nat :=
  (overwrite (List.replicate 64 0) (if 64 < key.length then sha1 key else key)).map
    (fun b => b ^^^ 0x5c)

/-- The four counter bytes the driver stores at asalt[salt_len..salt_len+3]
(src lines 103-106): big-endian bytes of the u_int block counter. -/
def counterBytes (count : Nat) : List Nat :=
  [(count >>> 24) &&& 255, (count >>> 16) &&& 255, (count >>> 8) &&& 255, count &&& 255]

/-- Byte-wise XOR of two buffers (the obuf accumulation loop). -/
def xorBytes (a b : List Nat) : List Nat := List.zipWith (fun x y => x ^^^ y) a b

/-- The inner iteration loop of pkcs5_pbkdf2 (src lines 110-116), run n
times: d2 = HMAC(d1, pass); d1 = d2; obuf ^= d1. Returns the final
(d1, obuf) pair; the source runs it with n = rounds - 1. -/
def roundsLoop (pass d1 obuf : List Nat) : Nat → List Nat × List Nat
  | 0 => (d1, obuf)
  | n + 1 =>
      let d2 := hmac_sha1 d1 pass
      roundsLoop pass d2 (xorBytes obuf d2) n

/-- One block of the driver: d1 = HMAC(salt ‖ counter, pass), obuf = d1,
then rounds - 1 chained HMAC/XOR iterations; the value of obuf that the
driver copies from (src lines 107-116). -/
def pkcs5_F (pass salt : List Nat) (rounds count : Nat) : List Nat :=
  let d1 := hmac_sha1 (salt ++ counterBytes count) pass
  (roundsLoop pass d1 d1 (rounds - 1)).2

/-- The block loop of pkcs5_pbkdf2 (src lines 102-123): while key_len > 0,
emit min(key_len, 20) bytes of the current block's obuf and continue
with the rest; count is the 1-based block counter. Termination is by
well-founded recursion on the remaining key_len, which strictly
decreases because min(key_len, 20) is at least 1. -/
def pkcs5_loop (pass salt : List Nat) (rounds key_len count : Nat) : List Nat :=
  if _h : key_len = 0 then []
  else
    let obuf := pkcs5_F pass salt rounds count
    let r := min key_len 20
    obuf.take r ++ pkcs5_loop pass salt rounds (key_len - r) (count + 1)
  termination_by key_len
  decreasing_by omega

/-- Largest value of the 64-bit size_t. -/
def SIZE_MAX : Nat := 2 ^ 64 - 1

/-- pkcs5_pbkdf2 (src lines 81-131). Validation in source order:
rounds < 1 or key_len == 0 fail; salt_len == 0 or salt_len > SIZE_MAX - 1
fail; a failed malloc of the asalt scratch buffer fails (modelled by the
allocOk flag). none models the -1 return; on success the output buffer
holds exactly the bytes produced by the block loop. -/
def pkcs5_pbkdf2 (allocOk : Bool) (pass salt : List Nat) (key_len rounds : Nat) :
    Option (List Nat) :=
  if rounds < 1 ∨ key_len = 0 then none
  else if salt.length = 0 ∨ salt.length > SIZE_MAX - 1 then none
  else if allocOk = false then none
  else some (pkcs5_loop pass salt rounds key_len 1)

/-- The public entry point pbkdf2 (src lines 135-147): resizes the key
string to key_len, calls pkcs5_pbkdf2 and turns a nonzero return into a
thrown error (throw_c), so the caller sees either a full key or no key. -/
def pbkdf2 (allocOk : Bool) (pass salt : List Nat) (key_len rounds : Nat) :
    Option (List Nat) :=
  pkcs5_pbkdf2 allocOk pass salt key_len rounds

/-- Final contents of the internally allocated buffers of one
pkcs5_pbkdf2 call, observed at the success return. -/
structure ScrubOut where
  key : List Nat
  asalt : List Nat
  d1 : List Nat
  d2 : List Nat
  obuf : List Nat
  kpad : List Nat

/-- pkcs5_pbkdf2 instrumented with the final contents of its scratch
buffers. On the success path the source bzeroes asalt (salt_len + 4
bytes), d1, d2 and obuf before returning (src lines 124-128); every
HMAC call inside the loop keys with pass, so the k_pad buffer of the
last hmac_sha1 frame holds the outer pad of pass, which no code zeroes.
The early validation returns happen before any buffer is written. -/
def pkcs5_pbkdf2S (allocOk : Bool) (pass salt : List Nat) (key_len rounds : Nat) :
    Option ScrubOut :=
  if rounds < 1 ∨ key_len = 0 then none
  else if salt.length = 0 ∨ salt.length > SIZE_MAX - 1 then none
  else if allocOk = false then none
  else some
    { key := pkcs5_loop pass salt rounds key_len 1
      asalt := List.replicate (salt.length + 4) 0
      d1 := List.replicate 20 0
      d2 := List.replicate 20 0
      obuf := List.replicate 20 0
      kpad := opadOf pass }

/-! ## Reference definitions written from the specification's words -/

/-- Modelled from the spec (claim C1): INT(i), the big-endian 32-bit
block counter. -/
def int32be (i : Nat) : List Nat := toBytesBE 4 (i % w32)

/-- Modelled from the spec (claim C1): U_1 = HMAC(salt ‖ INT(i), password)
and U_{j+1} = HMAC(U_j, password); Uiter pass salt i j is U_{j+1}. -/
def Uiter (pass salt : List Nat) (i : Nat) : Nat → List Nat
  | 0 => hmac_sha1 (salt ++ int32be i) pass
  | j + 1 => hmac_sha1 (Uiter pass salt i j) pass

/-- Modelled from the spec (claim C1): T_i, the byte-wise XOR of U_1
through U_rounds for block i. -/
def Tblock (pass salt : List Nat) (rounds i : Nat) : List Nat :=
  (List.range rounds).foldl (fun acc j => xorBytes acc (Uiter pass salt i j))
    (List.replicate 20 0)

/-- Modelled from the spec (claim C1): the PBKDF2 reference definition,
the concatenation of T_1, T_2, ... truncated to key_len bytes. -/
def pbkdf2_ref (pass salt : List Nat) (key_len rounds : Nat) : List Nat :=
  (List.flatten ((List.range ((key_len + 19) / 20)).map
    (fun b => Tblock pass salt rounds (b + 1)))).take key_len

/-- Modelled from the spec (claim C2): HMAC as
hash(outer-pad ‖ hash(inner-pad ‖ message)), the effective key being the
hash of the key when it exceeds the 64-byte block, and the pads being the
effective key zero-padded to 64 bytes XORed byte-wise with 0x36 / 0x5c. -/
def hmacRef (text key : List Nat) : List Nat :=
  let ek := if 64 < key.length then sha1 key else key
  let ip := (ek ++ List.replicate (64 - ek.length) 0).map (fun b => b ^^^ 0x36)
  let op := (ek ++ List.replicate (64 - ek.length) 0).map (fun b => b ^^^ 0x5c)
  sha1 (op ++ sha1 (ip ++ text))

/-- Hex digits (nibble values) of a byte sequence, two per byte. -/
def hexNibbles (bs : List Nat) : List Nat := List.flatten (bs.map (fun b => [b / 16, b % 16]))

/-- ASCII bytes of the test-vector password "password". -/
def passwordBytes : List Nat := [112, 97, 115, 115, 119, 111, 114, 100]

/-- ASCII bytes of the test-vector salt "salt". -/
def saltBytes : List Nat := [115, 97, 108, 116]

/-- RFC 6070 derived key for password "password", salt "salt", 1 round,
20 bytes: 0c60c80f961f0e71f3a9b524af6012062fe037a6. -/
def katBytes : List Nat :=
  [12, 96, 200, 15, 150, 31, 14, 113, 243, 169, 181, 36, 175, 96, 18, 6, 47, 224, 55, 166]

/-- Hex digits of the digest string quoted by the spec,
0c60c80f961f0e71f3a9b524af6012062fe037a: 39 nibbles, one digit short of
a 20-byte digest. -/
def claimedDigestNibbles : List Nat :=
  [0, 12, 6, 0, 12, 8, 0, 15, 9, 6, 1, 15, 0, 14, 7, 1, 15, 3, 10, 9, 11, 5, 2, 4,
   10, 15, 6, 0, 1, 2, 0, 6, 2, 15, 14, 0, 3, 7, 10]

/-! ## Basic length facts -/

theorem toBytesBE_length (n x : Nat) : (toBytesBE n x).length = n := by
  simp [toBytesBE]

theorem sha1_length (msg : List Nat) : (sha1 msg).length = 20 := by
  unfold sha1
  obtain ⟨h0, h1, h2, h3, h4⟩ :=
    sha1_chunks sha1_init (wordsToChunks (bytesToWords (sha1_pad msg)))
  simp [sha1_output, toBytesBE_length]

theorem hmac_sha1_length (text key : List Nat) : (hmac_sha1 text key).length = 20 := by
  simp [hmac_sha1, hmac_sha1S, sha1_length]

theorem xorBytes_length (a b : List Nat) :
    (xorBytes a b).length = min a.length b.length := by
  simp [xorBytes]

theorem Uiter_length (pass salt : List Nat) (i j : Nat) :
    (Uiter pass salt i j).length = 20 := by
  cases j with
  | zero => simp [Uiter, hmac_sha1_length]
  | succ j => simp [Uiter, hmac_sha1_length]

theorem roundsLoop_snd_length (pass : List Nat) :
    ∀ (n : Nat) (d o : List Nat), o.length = 20 →
      ((roundsLoop pass d o n).2).length = 20 := by
  intro n
  induction n with
  | zero => intro d o ho; simpa [roundsLoop] using ho
  | succ n ih =>
      intro d o ho
      simp only [roundsLoop]
      exact ih _ _ (by simp [xorBytes_length, ho, hmac_sha1_length])

theorem pkcs5_F_length (pass salt : List Nat) (rounds count : Nat) :
    (pkcs5_F pass salt rounds count).length = 20 := by
  unfold pkcs5_F
  exact roundsLoop_snd_length pass _ _ _ (hmac_sha1_length _ _)

theorem Tblock_length (pass salt : List Nat) (rounds i : Nat) :
    (Tblock pass salt rounds i).length = 20 := by
  unfold Tblock
  have : ∀ (l : List Nat) (acc : List Nat), acc.length = 20 →
      (l.foldl (fun acc j => xorBytes acc (Uiter pass salt i j)) acc).length = 20 := by
    intro l
    induction l with
    | nil => intro acc h; simpa using h
    | cons x xs ih =>
        intro acc h
        exact ih _ (by simp [xorBytes_length, h, Uiter_length])
  exact this _ _ (by simp)

/-! ## Unfolding equations for the block loop -/

theorem pkcs5_loop_zero (p s : List Nat) (r c : Nat) : pkcs5_loop p s r 0 c = [] := by
  unfold pkcs5_loop
  simp

theorem pkcs5_loop_pos (p s : List Nat) (r klen c : Nat) (h : klen ≠ 0) :
    pkcs5_loop p s r klen c
      = (pkcs5_F p s r c).take (min klen 20)
          ++ pkcs5_loop p s r (klen - min klen 20) (c + 1) := by
  conv_lhs => rw [pkcs5_loop]
  rw [dif_neg h]

theorem pkcs5_loop_length (p s : List Nat) (r : Nat) :
    ∀ klen c, (pkcs5_loop p s r klen c).length = klen := by
  intro klen
  induction klen using Nat.strong_induction_on with
  | _ klen ih =>
      intro c
      by_cases h : klen = 0
      · subst h; simp [pkcs5_loop_zero]
      · rw [pkcs5_loop_pos p s r klen c h]
        have hF := pkcs5_F_length p s r c
        have hrec := ih (klen - min klen 20) (by omega) (c + 1)
        simp only [List.length_append, List.length_take, hF, hrec]
        omega

/-! ## HMAC: bcopy-over-bzero equals zero-padding -/

theorem overwrite_replicate_zero (n : Nat) (src : List Nat) :
    overwrite (List.replicate n 0) src = src ++ List.replicate (n - src.length) 0 := by
  simp [overwrite, List.drop_replicate]

theorem hmac_matches_hmacRef (text key : List Nat) :
    hmac_sha1 text key = hmacRef text key := by
  unfold hmac_sha1 hmac_sha1S hmacRef
  by_cases h : 64 < key.length
  · simp only [h, if_true, overwrite_replicate_zero]
  · simp only [h, if_false, overwrite_replicate_zero]

/-! ## Counter bytes equal the big-endian 32-bit serialisation -/

theorem and_255_eq_mod (x : Nat) : x &&& 255 = x % 256 := by
  have := Nat.and_pow_two_sub_one_eq_mod x 8
  simpa using this

theorem counterBytes_eq_int32be (c : Nat) : counterBytes c = int32be c := by
  unfold counterBytes int32be toBytesBE w32
  simp only [List.range_succ, List.range_zero, List.map_append, List.map_cons, List.map_nil,
    List.nil_append, List.cons_append, and_255_eq_mod, Nat.shiftRight_eq_div_pow]
  norm_num
  omega

/-! ## The inner loop computes the XOR of the U chain -/

theorem xorBytes_replicate_zero :
    ∀ (u : List Nat) (n : Nat), u.length = n → xorBytes (List.replicate n 0) u = u := by
  intro u
  induction u with
  | nil => intro n h; subst h; simp [xorBytes]
  | cons x xs ih =>
      intro n h
      subst h
      simp only [List.length_cons, List.replicate_succ, xorBytes, List.zipWith_cons_cons]
      rw [Nat.zero_xor]
      exact congrArg (x :: ·) (ih xs.length rfl)

theorem Tblock_succ (pass salt : List Nat) (m i : Nat) :
    Tblock pass salt (m + 1) i
      = xorBytes (Tblock pass salt m i) (Uiter pass salt i m) := by
  unfold Tblock
  rw [List.range_succ, List.foldl_append]
  simp

theorem Tblock_one (pass salt : List Nat) (i : Nat) :
    Tblock pass salt 1 i = Uiter pass salt i 0 := by
  unfold Tblock
  simp only [List.range_succ, List.range_zero, List.nil_append, List.foldl_cons,
    List.foldl_nil]
  exact xorBytes_replicate_zero _ _ (Uiter_length pass salt i 0)

theorem roundsLoop_spec (pass salt : List Nat) (i : Nat) :
    ∀ (n j : Nat),
      roundsLoop pass (Uiter pass salt i j) (Tblock pass salt (j + 1) i) n
        = (Uiter pass salt i (j + n), Tblock pass salt (j + 1 + n) i) := by
  intro n
  induction n with
  | zero => intro j; simp [roundsLoop]
  | succ n ih =>
      intro j
      have hU : hmac_sha1 (Uiter pass salt i j) pass = Uiter pass salt i (j + 1) := rfl
      have hstep :
          roundsLoop pass (Uiter pass salt i j) (Tblock pass salt (j + 1) i) (n + 1)
            = roundsLoop pass (Uiter pass salt i (j + 1))
                (Tblock pass salt (j + 1 + 1) i) n := by
        simp only [roundsLoop, hU, Tblock_succ]
      rw [hstep, ih (j + 1)]
      have e1 : j + 1 + n = j + (n + 1) := by omega
      have e2 : j + 1 + 1 + n = j + 1 + (n + 1) := by omega
      rw [e1, e2]

theorem pkcs5_F_eq_Tblock (pass salt : List Nat) (rounds count : Nat)
    (hr : 1 ≤ rounds) :
    pkcs5_F pass salt rounds count = Tblock pass salt rounds count := by
  have hd1 : hmac_sha1 (salt ++ counterBytes count) pass = Uiter pass salt count 0 := by
    rw [counterBytes_eq_int32be]
    rfl
  have key : (roundsLoop pass (Uiter pass salt count 0) (Uiter pass salt count 0)
      (rounds - 1)).2 = Tblock pass salt rounds count := by
    have hbase :
        roundsLoop pass (Uiter pass salt count 0) (Uiter pass salt count 0) (rounds - 1)
          = roundsLoop pass (Uiter pass salt count 0) (Tblock pass salt (0 + 1) count)
              (rounds - 1) := by
      rw [Nat.zero_add, Tblock_one]
    rw [hbase, roundsLoop_spec pass salt count (rounds - 1) 0]
    have e : 0 + 1 + (rounds - 1) = rounds := by omega
    rw [e]
  show (roundsLoop pass (hmac_sha1 (salt ++ counterBytes count) pass)
      (hmac_sha1 (salt ++ counterBytes count) pass) (rounds - 1)).2
        = Tblock pass salt rounds count
  rw [hd1]
  exact key

/-! ## The block loop equals the reference definition, and is prefix-closed -/

theorem pkcs5_loop_eq_ref (p s : List Nat) (r : Nat) (hr : 1 ≤ r) :
    ∀ klen c, pkcs5_loop p s r klen c
      = (List.flatten ((List.range ((klen + 19) / 20)).map
          (fun b => Tblock p s r (c + b)))).take klen := by
  intro klen
  induction klen using Nat.strong_induction_on with
  | _ klen ih =>
    intro c
    by_cases h0 : klen = 0
    · subst h0
      simp [pkcs5_loop_zero]
    · rw [pkcs5_loop_pos p s r klen c h0, pkcs5_F_eq_Tblock p s r c hr]
      have hT : (Tblock p s r c).length = 20 := Tblock_length p s r c
      by_cases hle : klen ≤ 20
      · have hmin : min klen 20 = klen := by omega
        have hnb : (klen + 19) / 20 = 1 := by omega
        rw [hmin, hnb, Nat.sub_self, pkcs5_loop_zero]
        simp [List.range_succ]
      · have hmin : min klen 20 = 20 := by omega
        have h20 : (Tblock p s r c).take 20 = Tblock p s r c := by
          conv_lhs => rw [← hT]
          exact List.take_length _
        have hnb : (klen + 19) / 20 = (klen - 20 + 19) / 20 + 1 := by omega
        rw [hmin, h20, ih (klen - 20) (by omega) (c + 1), hnb, List.range_succ_eq_map]
        have hfun : ((fun b => Tblock p s r (c + b)) ∘ Nat.succ)
            = (fun b => Tblock p s r (c + 1 + b)) := by
          funext b
          simp only [Function.comp_apply]
          congr 1
          omega
        simp only [List.map_cons, List.map_map, hfun, List.flatten_cons, Nat.add_zero]
        rw [List.take_append_eq_append_take, hT]
        have htk : (Tblock p s r c).take klen = Tblock p s r c :=
          List.take_of_length_le (by omega)
        rw [htk]

theorem pkcs5_loop_take (p s : List Nat) (r : Nat) :
    ∀ L K c, K ≤ L → (pkcs5_loop p s r L c).take K = pkcs5_loop p s r K c := by
  intro L
  induction L using Nat.strong_induction_on with
  | _ L ih =>
    intro K c hKL
    by_cases hK0 : K = 0
    · subst hK0
      simp [pkcs5_loop_zero]
    · have hL0 : L ≠ 0 := by omega
      rw [pkcs5_loop_pos p s r L c hL0, pkcs5_loop_pos p s r K c hK0]
      have hF : (pkcs5_F p s r c).length = 20 := pkcs5_F_length p s r c
      rw [List.take_append_eq_append_take, List.take_take, List.length_take, hF]
      by_cases h20 : K ≤ 20
      · have h1 : min K (min L 20) = K := by omega
        have h2 : K - min (min L 20) 20 = 0 := by omega
        have h3 : min K 20 = K := by omega
        have h4 : K - K = 0 := by omega
        rw [h1, h2, h3, h4, List.take_zero, pkcs5_loop_zero, List.append_nil]
      · have h1 : min K (min L 20) = 20 := by omega
        have h2 : K - min (min L 20) 20 = K - 20 := by omega
        have h3 : min K 20 = 20 := by omega
        have h4 : min L 20 = 20 := by omega
        rw [h1, h2, h3, h4,
          ih (L - 20) (by omega) (K - 20) (c + 1) (by omega)]

/-! ## Guard behaviour of pkcs5_pbkdf2 -/

theorem pkcs5_pbkdf2_some (p s : List Nat) (klen r : Nat)
    (hr : 1 ≤ r) (hk : 1 ≤ klen) (hs : s ≠ []) (hfit : s.length ≤ SIZE_MAX - 1) :
    pkcs5_pbkdf2 true p s klen r = some (pkcs5_loop p s r klen 1) := by
  unfold pkcs5_pbkdf2
  have c1 : ¬(r < 1 ∨ klen = 0) := by omega
  have c2 : ¬(s.length = 0 ∨ s.length > SIZE_MAX - 1) := by
    push_neg
    exact ⟨by simpa using hs, by omega⟩
  rw [if_neg c1, if_neg c2, if_neg (by simp)]

theorem pkcs5_pbkdf2_none_iff (a : Bool) (p s : List Nat) (klen r : Nat) :
    pkcs5_pbkdf2 a p s klen r = none ↔
      (r < 1 ∨ klen = 0 ∨ s.length = 0 ∨ SIZE_MAX - 1 < s.length ∨ a = false) := by
  unfold pkcs5_pbkdf2
  split_ifs with h1 h2 h3 <;> simp_all <;> tauto

theorem pkcs5_pbkdf2_some_length (a : Bool) (p s : List Nat) (klen r : Nat)
    (k : List Nat) (h : pkcs5_pbkdf2 a p s klen r = some k) : k.length = klen := by
  unfold pkcs5_pbkdf2 at h
  split_ifs at h
  have : k = pkcs5_loop p s r klen 1 := by
    exact (Option.some.injEq _ _ ▸ h.symm)
  rw [this, pkcs5_loop_length]

/-! ## Known-answer computation -/

set_option maxRecDepth 1000000 in
theorem pkcs5_loop_kat : pkcs5_loop passwordBytes saltBytes 1 20 1 = katBytes := by
  rw [pkcs5_loop_pos _ _ _ _ _ (by decide)]
  norm_num
  rw [pkcs5_loop_zero]
  decide

/-! ## Claim theorems -/

/-- C1: for every password, non-empty salt of size_t-representable length,
key_length ≥ 1 and rounds ≥ 1, the derived key equals the PBKDF2 reference
definition: the concatenation of blocks T_1, T_2, ... truncated to key_length
bytes, where U_1 = HMAC(salt ‖ INT(i), password) with INT(i) the big-endian
32-bit counter, U_j = HMAC(U_{j-1}, password), and T_i is the byte-wise XOR
of U_1 through U_rounds. -/
theorem pbkdf2_matches_reference (p s : List Nat) (klen r : Nat)
    (hr : 1 ≤ r) (hk : 1 ≤ klen) (hs : s ≠ []) (hfit : s.length ≤ SIZE_MAX - 1) :
    pkcs5_pbkdf2 true p s klen r = some (pbkdf2_ref p s klen r) := by
  rw [pkcs5_pbkdf2_some p s klen r hr hk hs hfit]
  congr 1
  rw [pkcs5_loop_eq_ref p s r hr klen 1]
  unfold pbkdf2_ref
  have hfun : (fun b => Tblock p s r (1 + b)) = (fun b => Tblock p s r (b + 1)) := by
    funext b
    rw [Nat.add_comm]
  rw [hfun]

theorem pbkdf2_matches_reference_witness :
    pkcs5_pbkdf2 true [0] [1] 1 1 = some (pbkdf2_ref [0] [1] 1 1) :=
  pbkdf2_matches_reference [0] [1] 1 1 (by decide) (by decide) (by decide) (by decide)

/-- C2: for every message and key, the HMAC engine's output equals
hash(outer-pad ‖ hash(inner-pad ‖ message)) with the effective key being
the hash of the key when longer than the 64-byte block and the pads being
the effective key zero-padded to 64 bytes XORed with 0x36 / 0x5c; the
operation is total, always producing a 20-byte digest, for all input
lengths including empty message and empty key. -/
theorem hmac_total_and_matches_spec (text key : List Nat) :
    hmac_sha1 text key = hmacRef text key ∧ (hmac_sha1 text key).length = 20 :=
  ⟨hmac_matches_hmacRef text key, hmac_sha1_length text key⟩

/-- C3: for every valid input (rounds ≥ 1, key_length ≥ 1, non-empty salt
fitting the 4-byte counter), derive_key succeeds with a key of length
exactly key_length; and every successful call, valid or not, returns a key
of exactly the requested length, failure returning no key at all. -/
theorem derive_key_success_exact_length (p s : List Nat) (klen r : Nat)
    (hr : 1 ≤ r) (hk : 1 ≤ klen) (hs : s ≠ []) (hfit : s.length + 4 ≤ SIZE_MAX) :
    (∃ k, pbkdf2 true p s klen r = some k ∧ k.length = klen) ∧
      ∀ (a : Bool) (p2 s2 : List Nat) (klen2 r2 : Nat) (k : List Nat),
        pbkdf2 a p2 s2 klen2 r2 = some k → k.length = klen2 := by
  constructor
  · exact ⟨pkcs5_loop p s r klen 1,
      pkcs5_pbkdf2_some p s klen r hr hk hs (by omega),
      pkcs5_loop_length p s r klen 1⟩
  · intro a p2 s2 klen2 r2 k h
    exact pkcs5_pbkdf2_some_length a p2 s2 klen2 r2 k h

theorem derive_key_success_exact_length_witness :
    (∃ k, pbkdf2 true [0] [1] 1 1 = some k ∧ k.length = 1) ∧
      ∀ (a : Bool) (p2 s2 : List Nat) (klen2 r2 : Nat) (k : List Nat),
        pbkdf2 a p2 s2 klen2 r2 = some k → k.length = klen2 :=
  derive_key_success_exact_length [0] [1] 1 1 (by decide) (by decide) (by decide)
    (by decide)

/-- C4: prefix stability: for K ≤ L (both valid), the first K bytes of the
L-byte derivation equal the K-byte derivation with the same password, salt
and rounds. -/
theorem derive_key_prefix_stability (p s : List Nat) (r K L : Nat)
    (hr : 1 ≤ r) (hK : 1 ≤ K) (hKL : K ≤ L) (hs : s ≠ [])
    (hfit : s.length + 4 ≤ SIZE_MAX) :
    ∃ kL kK, pbkdf2 true p s L r = some kL ∧ pbkdf2 true p s K r = some kK ∧
      kL.take K = kK :=
  ⟨pkcs5_loop p s r L 1, pkcs5_loop p s r K 1,
    pkcs5_pbkdf2_some p s L r hr (by omega) hs (by omega),
    pkcs5_pbkdf2_some p s K r hr hK hs (by omega),
    pkcs5_loop_take p s r L K 1 hKL⟩

theorem derive_key_prefix_stability_witness :
    ∃ kL kK, pbkdf2 true [0] [1] 25 2 = some kL ∧ pbkdf2 true [0] [1] 5 2 = some kK ∧
      kL.take 5 = kK :=
  derive_key_prefix_stability [0] [1] 2 5 25 (by decide) (by decide) (by decide)
    (by decide) (by decide)

/-- C5 (amended): derivation fails if and only if rounds < 1, or
key_length = 0, or the salt is empty, or the salt length exceeds
SIZE_MAX - 1, or the scratch-buffer allocation fails; and the failure
decision never depends on the password bytes, only on the parameter
sizes, so validation precedes any secret-derived computation, and all
failures collapse into the single none outcome. -/
theorem derivation_failure_iff (a : Bool) (p s : List Nat) (klen r : Nat) :
    (pkcs5_pbkdf2 a p s klen r = none ↔
      r < 1 ∨ klen = 0 ∨ s.length = 0 ∨ SIZE_MAX - 1 < s.length ∨ a = false) ∧
    ∀ p2 : List Nat,
      (pkcs5_pbkdf2 a p2 s klen r = none ↔ pkcs5_pbkdf2 a p s klen r = none) := by
  refine ⟨pkcs5_pbkdf2_none_iff a p s klen r, ?_⟩
  intro p2
  rw [pkcs5_pbkdf2_none_iff, pkcs5_pbkdf2_none_iff]

/-- C5 counterexample: a salt of length SIZE_MAX - 3 cannot accommodate the
4-byte counter suffix (its length + 4 exceeds SIZE_MAX), so the claim
demands failure, yet the code's salt_len > SIZE_MAX - 1 check lets it
through and derivation proceeds. -/
theorem oversized_salt_accepted_cex :
    SIZE_MAX < (List.replicate (SIZE_MAX - 3) 0).length + 4 ∧
    pkcs5_pbkdf2 true [] (List.replicate (SIZE_MAX - 3) 0) 1 1 ≠ none := by
  constructor
  · rw [List.length_replicate]
    norm_num [SIZE_MAX]
  · rw [ne_eq, pkcs5_pbkdf2_none_iff]
    push_neg
    refine ⟨by norm_num, by norm_num, ?_, ?_, by simp⟩
    · rw [List.length_replicate]
      norm_num [SIZE_MAX]
    · rw [List.length_replicate]
      norm_num [SIZE_MAX]

/-- C6 (code bug): a salt of length SIZE_MAX - 3 is not shorter than
SIZE_MAX - 4, and appending the 4-byte counter wraps the size_t
computation salt_len + 4 to 0, yet the code's guard
(salt_len > SIZE_MAX - 1) does not reject it and derivation proceeds
instead of returning the invalid-parameter error the claim requires. -/
theorem salt_overflow_not_rejected :
    SIZE_MAX - 4 ≤ (List.replicate (SIZE_MAX - 3) 0).length ∧
    ((List.replicate (SIZE_MAX - 3) 0).length + 4) % 2 ^ 64 = 0 ∧
    pkcs5_pbkdf2 true [1] (List.replicate (SIZE_MAX - 3) 0) 1 1 ≠ none := by
  refine ⟨?_, ?_, ?_⟩
  · rw [List.length_replicate]
    norm_num [SIZE_MAX]
  · rw [List.length_replicate]
    norm_num [SIZE_MAX]
  · rw [ne_eq, pkcs5_pbkdf2_none_iff]
    push_neg
    refine ⟨by norm_num, by norm_num, ?_, ?_, by simp⟩
    · rw [List.length_replicate]
      norm_num [SIZE_MAX]
    · rw [List.length_replicate]
      norm_num [SIZE_MAX]

/-- C7 (amended): derive_key with password "password", salt "salt", 1 round
and 20-byte output equals the published RFC 2898 / RFC 6070 reference
digest 0c60c80f961f0e71f3a9b524af6012062fe037a6. -/
theorem kat_matches_rfc6070 :
    pbkdf2 true passwordBytes saltBytes 20 1 = some katBytes := by
  unfold pbkdf2
  rw [pkcs5_pbkdf2_some passwordBytes saltBytes 20 1 (by decide) (by decide) (by decide)
    (by decide), pkcs5_loop_kat]

/-- C7 counterexample: the derived key is produced, but its hex expansion
(40 digits, ending in a6) is not the 39-digit string quoted by the spec,
so the key does not equal the digest as the claim states it. -/
theorem kat_spec_digest_mismatch_cex :
    pbkdf2 true passwordBytes saltBytes 20 1 = some katBytes ∧
    hexNibbles katBytes ≠ claimedDigestNibbles := by
  constructor
  · unfold pbkdf2
    rw [pkcs5_pbkdf2_some passwordBytes saltBytes 20 1 (by decide) (by decide)
      (by decide) (by decide), pkcs5_loop_kat]
  · decide

/-- C8 (amended): on every successful derivation the driver zeroes the
buffers it allocated - asalt (salt_len + 4 bytes), d1, d2 and obuf -
before returning, and the early validation failures return before any
buffer is written; but the HMAC engine's padded-key buffer is left
holding the outer pad of the password (it is never zeroed), so one
secret-derived scratch buffer does survive the call. -/
theorem driver_scrubs_own_buffers (p s : List Nat) (klen r : Nat)
    (hr : 1 ≤ r) (hk : 1 ≤ klen) (hs : s ≠ []) (hfit : s.length + 4 ≤ SIZE_MAX) :
    ∃ st : ScrubOut, pkcs5_pbkdf2S true p s klen r = some st ∧
      st.asalt = List.replicate (s.length + 4) 0 ∧
      st.d1 = List.replicate 20 0 ∧ st.d2 = List.replicate 20 0 ∧
      st.obuf = List.replicate 20 0 ∧ st.kpad = opadOf p ∧
      st.key = pkcs5_loop p s r klen 1 := by
  refine ⟨{ key := pkcs5_loop p s r klen 1
            asalt := List.replicate (s.length + 4) 0
            d1 := List.replicate 20 0
            d2 := List.replicate 20 0
            obuf := List.replicate 20 0
            kpad := opadOf p }, ?_, rfl, rfl, rfl, rfl, rfl, rfl⟩
  unfold pkcs5_pbkdf2S
  have c1 : ¬(r < 1 ∨ klen = 0) := by omega
  have c2 : ¬(s.length = 0 ∨ s.length > SIZE_MAX - 1) := by
    push_neg
    refine ⟨by simpa using hs, by omega⟩
  rw [if_neg c1, if_neg c2, if_neg (by simp)]

theorem driver_scrubs_own_buffers_witness :
    ∃ st : ScrubOut, pkcs5_pbkdf2S true [1] [2] 1 1 = some st ∧
      st.asalt = List.replicate ([2].length + 4) 0 ∧
      st.d1 = List.replicate 20 0 ∧ st.d2 = List.replicate 20 0 ∧
      st.obuf = List.replicate 20 0 ∧ st.kpad = opadOf [1] ∧
      st.key = pkcs5_loop [1] [2] 1 1 1 :=
  driver_scrubs_own_buffers [1] [2] 1 1 (by decide) (by decide) (by decide) (by decide)

/-- C8 counterexample: a successful derivation call after which the HMAC
engine's padded-key buffer is not zero - it holds the outer pad derived
from the password - refuting the claim that every internally used scratch
buffer, the HMAC padded-key buffers included, is zeroed before return. -/
theorem hmac_kpad_not_scrubbed_cex :
    (pkcs5_pbkdf2S true [1] [2] 1 1).isSome = true ∧
    (pkcs5_pbkdf2S true [1] [2] 1 1).map ScrubOut.kpad ≠ some (List.replicate 64 0) := by
  have h12 : pkcs5_pbkdf2S true [1] [2] 1 1
      = some
        { key := pkcs5_loop [1] [2] 1 1 1
          asalt := List.replicate ([2].length + 4) 0
          d1 := List.replicate 20 0
          d2 := List.replicate 20 0
          obuf := List.replicate 20 0
          kpad := opadOf [1] } := by
    unfold pkcs5_pbkdf2S
    rw [if_neg (by decide), if_neg (by decide), if_neg (by simp)]
  rw [h12]
  refine ⟨rfl, ?_⟩
  simp only [Option.map_some, ne_eq, Option.some.injEq]
  decide

/-- C9: an empty password is accepted: with a zero-length password and any
valid salt, key_length and rounds, derivation succeeds and returns a key
of exactly key_length bytes. -/
theorem empty_password_accepted (s : List Nat) (klen r : Nat)
    (hr : 1 ≤ r) (hk : 1 ≤ klen) (hs : s ≠ []) (hfit : s.length + 4 ≤ SIZE_MAX) :
    ∃ k, pbkdf2 true [] s klen r = some k ∧ k.length = klen :=
  ⟨pkcs5_loop [] s r klen 1,
    pkcs5_pbkdf2_some [] s klen r hr hk hs (by omega),
    pkcs5_loop_length [] s r klen 1⟩

theorem empty_password_accepted_witness :
    ∃ k, pbkdf2 true [] [7] 3 2 = some k ∧ k.length = 3 :=
  empty_password_accepted [7] 3 2 (by decide) (by decide) (by decide) (by decide)

/-- C10: the block loop terminates: whenever the remaining key length is
positive, one iteration emits min(key_len, 20) ≥ 1 bytes and recurses on
a strictly smaller remaining key length, which is the well-founded
measure the embedded driver recurses on. -/
theorem block_loop_strictly_decreases (p s : List Nat) (r klen c : Nat)
    (h : 0 < klen) :
    pkcs5_loop p s r klen c
        = (pkcs5_F p s r c).take (min klen 20)
            ++ pkcs5_loop p s r (klen - min klen 20) (c + 1)
      ∧ 1 ≤ min klen 20 ∧ klen - min klen 20 < klen :=
  ⟨pkcs5_loop_pos p s r klen c (by omega), by omega, by omega⟩

theorem block_loop_strictly_decreases_witness :
    pkcs5_loop [3] [4] 2 5 1
        = (pkcs5_F [3] [4] 2 1).take (min 5 20)
            ++ pkcs5_loop [3] [4] 2 (5 - min 5 20) (1 + 1)
      ∧ 1 ≤ min 5 20 ∧ 5 - min 5 20 < 5 :=
  block_loop_strictly_decreases [3] [4] 2 5 1 (by decide)

end CryptdbPbkdf2
